import Mathlib

/-!
# Reminder scheduler (`main.go`): Timer, scheduling loop and registry

A shallow embedding of the Go program's `Timer` type, its `nextTime`
computation, the body of the `Run` loop, and the registry operations
(`AddTicker`, `DeleteTimer`, `Cancel`, `CancelOnce`, `delTimer`), followed by
theorems about them.

## Modelling conventions

* Go `int`/`int64` values that cannot overflow here are `Int`; `time.Duration`
  arithmetic wraps at 64 bits (`wrap64`) and `Time.Sub` saturates, as in Go.
* `time.Time` is a wall instant (Unix seconds, nanoseconds) with a `Location`;
  the monotonic clock reading is not represented.  A `Location` is its zone
  `lookup` function, so fixed zones and zones with transitions are both covered.
* `timerMap` is a function from titles to optional pointers; pointers index a
  heap of `Timer` values; channels are references into a channel store.
* A goroutine executing `Run` is represented by a counter per pointer of the
  goroutines currently inside the `for` loop.
-/

namespace Ticker

/-! ## The `time` package fragment used by the program -/

/-- Zone information: `lookup unix = (offset, start, end)` gives the offset east of UTC
in effect at the Unix time and the half-open validity interval of that zone. -/
structure Location where
  lookup : Int → Int × Int × Int

/-- The `time.UTC` location. -/
def UTC : Location := ⟨fun _ => (0, -9223372036854775808, 9223372036854775807)⟩

/-- A `time.FixedZone` with the given offset in seconds east of UTC. -/
def FixedZone (offset : Int) : Location :=
  ⟨fun _ => (offset, -9223372036854775808, 9223372036854775807)⟩

/-- A `time.Time`: seconds since the Unix epoch, nanoseconds within the second, location. -/
structure Time where
  sec : Int
  nsec : Int
  loc : Location

/-- A `time.Duration` is a count of nanoseconds held in an `int64`. -/
abbrev Duration := Int

def minDuration : Duration := -9223372036854775808
def maxDuration : Duration := 9223372036854775807

def Second : Duration := 1000000000
def Minute : Duration := 60 * Second
def Hour : Duration := 60 * Minute

/-- Two's-complement wrap-around of an integer into the `int64` range. -/
def wrap64 (x : Int) : Int :=
  (x + 9223372036854775808) % 18446744073709551616 - 9223372036854775808

/-- Seconds from 0001-01-01 00:00:00 UTC to the Unix epoch (`unixToInternal`). -/
def unixToInternal : Int := 62135596800

def secondsPerDay : Int := 86400
def daysPer400Years : Int := 146097
def daysPer100Years : Int := 36524
def daysPer4Years : Int := 1461

/-- Seconds since 0001-01-01 00:00:00 in the time's own location (`Time.abs`,
with the year-1 origin in place of Go's absolute zero year, which is congruent
to 1 modulo 400). -/
def Time.abs (t : Time) : Int :=
  t.sec + (t.loc.lookup t.sec).1 + unixToInternal

def isLeap (year : Int) : Bool :=
  year % 4 == 0 && (year % 100 != 0 || year % 400 == 0)

/-- The table `daysBefore`: days in a non-leap year before month `m + 1`. -/
def daysBefore (m : Int) : Int :=
  if m = 0 then 0 else if m = 1 then 31 else if m = 2 then 59 else if m = 3 then 90
  else if m = 4 then 120 else if m = 5 then 151 else if m = 6 then 181
  else if m = 7 then 212 else if m = 8 then 243 else if m = 9 then 273
  else if m = 10 then 304 else if m = 11 then 334 else 365

/-- Year and zero-based day of the year of an absolute second count (first half of `absDate`). -/
def absYearDay (abs : Int) : Int × Int :=
  let d := abs / secondsPerDay
  let n400 := d / daysPer400Years
  let d1 := d - daysPer400Years * n400
  let n100a := d1 / daysPer100Years
  let n100 := n100a - n100a / 4
  let d2 := d1 - daysPer100Years * n100
  let n4 := d2 / daysPer4Years
  let d3 := d2 - daysPer4Years * n4
  let n1a := d3 / 365
  let n1 := n1a - n1a / 4
  let d4 := d3 - 365 * n1
  (400 * n400 + 100 * n100 + 4 * n4 + n1 + 1, d4)

/-- Month and day of the month from the year and the zero-based day of the year
(second half of `absDate`). -/
def monthDay (year yday : Int) : Int × Int :=
  if isLeap year && yday == 31 + 29 - 1 then (2, 29)
  else
    let day := if isLeap year && yday > 31 + 29 - 1 then yday - 1 else yday
    let month := day / 31
    let stop := daysBefore (month + 1)
    if day >= stop then (month + 2, day - stop + 1)
    else (month + 1, day - daysBefore month + 1)

def Time.Year (t : Time) : Int := (absYearDay t.abs).1
def Time.Month (t : Time) : Int := (monthDay (absYearDay t.abs).1 (absYearDay t.abs).2).1
def Time.Day (t : Time) : Int := (monthDay (absYearDay t.abs).1 (absYearDay t.abs).2).2
def Time.Hour (t : Time) : Int := t.abs % secondsPerDay / 3600
def Time.Minute (t : Time) : Int := t.abs % 3600 / 60
def Time.Second (t : Time) : Int := t.abs % 60
def Time.Location (t : Time) : Location := t.loc

/-- Normalisation helper `norm(hi, lo, base)`. -/
def norm (hi lo base : Int) : Int × Int :=
  let n1 := if lo < 0 then (-lo - 1) / base + 1 else 0
  let hi1 := hi - n1
  let lo1 := lo + n1 * base
  let n2 := if lo1 >= base then lo1 / base else 0
  (hi1 + n2, lo1 - n2 * base)

/-- Days from 0001-01-01 to January 1 of the year (`daysSinceEpoch`). -/
def daysSinceEpoch (year : Int) : Int :=
  let y := year - 1
  let n400 := y / 400
  let y1 := y - 400 * n400
  let n100 := y1 / 100
  let y2 := y1 - 100 * n100
  let n4 := y2 / 4
  let y3 := y2 - 4 * n4
  daysPer400Years * n400 + daysPer100Years * n100 + daysPer4Years * n4 + 365 * y3

/-- The function `time.Date`. -/
def Date (year month day hour min sec nsec : Int) (loc : Location) : Time :=
  let ym := norm year (month - 1) 12
  let year := ym.1
  let month := ym.2 + 1
  let sn := norm sec nsec 1000000000
  let ms := norm min sn.1 60
  let hm := norm hour ms.1 60
  let dh := norm day hm.1 24
  let d := daysSinceEpoch year + daysBefore (month - 1)
    + (if isLeap year && month >= 3 then 1 else 0) + (dh.1 - 1)
  let abs := d * secondsPerDay + (dh.2 * 3600 + hm.2 * 60 + ms.2)
  let unix := abs - unixToInternal
  let z := loc.lookup unix
  let unix :=
    if z.1 != 0 then
      let utc := unix - z.1
      let offset := if utc < z.2.1 || utc >= z.2.2 then (loc.lookup utc).1 else z.1
      unix - offset
    else unix
  ⟨unix, sn.2, loc⟩

/-- The method `Time.AddDate`. -/
def Time.AddDate (t : Time) (years months days : Int) : Time :=
  Date (t.Year + years) (t.Month + months) (t.Day + days) t.Hour t.Minute t.Second t.nsec
    t.Location

/-- The method `Time.Before`: an instant comparison, locations are ignored. -/
def Time.Before (t u : Time) : Bool :=
  t.sec < u.sec || (t.sec == u.sec && t.nsec < u.nsec)

/-- The method `Time.Add`; `Int.tdiv`/`Int.tmod` are Go's truncating `/` and `%`. -/
def Time.Add (t : Time) (d : Duration) : Time :=
  let dsec := Int.tdiv d 1000000000
  let nsec := t.nsec + Int.tmod d 1000000000
  if nsec >= 1000000000 then ⟨t.sec + (dsec + 1), nsec - 1000000000, t.loc⟩
  else if nsec < 0 then ⟨t.sec + (dsec - 1), nsec + 1000000000, t.loc⟩
  else ⟨t.sec + dsec, nsec, t.loc⟩

/-- Nanoseconds since the Unix epoch, unbounded (the instant a `Time` denotes). -/
def Time.unixNano (t : Time) : Int := t.sec * 1000000000 + t.nsec

/-- The method `Time.Sub`: the difference `t - u`, saturated to the `Duration` range. -/
def Time.Sub (t u : Time) : Duration :=
  let d := (t.sec - u.sec) * Ticker.Second + (t.nsec - u.nsec)
  if d < minDuration then minDuration
  else if d > maxDuration then maxDuration
  else d

/-- The function `time.Since(t)`, with the clock reading `now` made explicit: `now.Sub(t)`. -/
def Since (now t : Time) : Duration := now.Sub t

/-- The function `time.NewTimer(d)` delivers on its channel once `d` has elapsed; a zero
or negative `d` is delivered at once.  This is the time the receive on `timer.C` waits. -/
def NewTimer_delay (d : Duration) : Duration := max d 0

/-! ## Declarations of `main.go` -/

/-- The declared error values, and the two run-time panics `close` can raise. -/
inductive Fault
  | errUnknown
  | errNoSuchTimer
  | errInputIllegal
  | closeOfNilChannel
  | closeOfClosedChannel
  deriving DecidableEq, Repr

def disposable : Int := 1
def repeat_ : Int := 2
def ticker : Int := 3

/-- The struct `Timer`.  The channel `cancel` is `none` when nil and otherwise a reference
into the channel store; the callback `f` is identified by a number. -/
structure Timer where
  Title : String
  timeType : Int
  time : Time
  running : Bool
  cancelOnce : Bool
  cancel : Option Nat
  f : Nat

/-- The zero `time.Time`: January 1, year 1, 00:00:00 UTC. -/
def zeroTime : Time := ⟨-unixToInternal, 0, UTC⟩

/-- The zero value `Timer{}`. -/
def zeroTimer : Timer := ⟨"", 0, zeroTime, false, false, none, 0⟩

/-- Program state: the global `timerMap`, the heap of `Timer` values behind the pointers,
the channel store (`true` = closed), the goroutines created by `go t.Run()` that have not
started yet, the number of goroutines inside the loop of `Run` per timer, and the log of
callback invocations. -/
structure World where
  timerMap : String → Option Nat
  heap : Nat → Timer
  nTimers : Nat
  chans : Nat → Bool
  nChans : Nat
  ready : List Nat
  loops : Nat → Nat
  calls : List Nat

/-- The state after `main` has initialised `timerMap`. -/
def World.init : World :=
  ⟨fun _ => none, fun _ => zeroTimer, 0, fun _ => false, 0, [], fun _ => 0, []⟩

/-- The function `NewTicker`. -/
def NewTicker (title : String) (timeType : Int) (time : Time) (f : Nat) : Timer :=
  if timeType = disposable then ⟨"[单次]" ++ title, timeType, time, false, false, none, f⟩
  else if timeType = repeat_ then ⟨"[重复\x7d" ++ title, timeType, time, false, false, none, f⟩
  else if timeType = ticker then ⟨"[有间隔]" ++ title, timeType, time, false, false, none, f⟩
  else zeroTimer

/-- The function `AddTicker`: the argument is copied to a fresh heap cell, the cell is
registered under its title, and a goroutine for `t.Run()` is created. -/
def AddTicker (w : World) (t : Timer) : World :=
  { w with
    heap := Function.update w.heap w.nTimers t
    nTimers := w.nTimers + 1
    timerMap := Function.update w.timerMap t.Title (some w.nTimers)
    ready := w.ready ++ [w.nTimers] }

/-- The method `Timer.nextTime`, with the reading of `time.Now()` as a parameter. -/
def nextTime (t : Timer) (now : Time) : Time :=
  if t.timeType = disposable then t.time
  else if t.timeType = repeat_ then
    let nextTime := Date now.Year now.Month now.Day t.time.Hour t.time.Minute t.time.Second 0
      now.Location
    if now.Before nextTime then nextTime
    else nextTime.AddDate 0 0 1
  else
    let tick := wrap64 (wrap64 (wrap64 (t.time.Hour * Hour) + wrap64 (t.time.Minute * Minute))
      + wrap64 (t.time.Second * Second))
    now.Add tick

/-- The duration `sub` that one iteration of the loop of `Run` passes to `time.NewTimer`:
`nextTime` reads the clock at `now1`, `time.Since` reads it at `now2`. -/
def Run_sub (t : Timer) (now1 now2 : Time) : Duration :=
  Since now2 (nextTime t now1)

/-- The method `Timer.Cancel`. -/
def Cancel (w : World) (t : Option Nat) : Except Fault World :=
  match t with
  | none => .ok w
  | some p =>
    match (w.heap p).cancel with
    | none => .error .closeOfNilChannel
    | some c =>
      if w.chans c then .error .closeOfClosedChannel
      else .ok { w with
        chans := Function.update w.chans c true
        heap := Function.update w.heap p { w.heap p with running := false } }

/-- The method `Timer.DeleteTimer`. -/
def DeleteTimer (w : World) (t : Option Nat) : Except Fault World :=
  match t with
  | none => .ok w
  | some p =>
    Cancel { w with timerMap := Function.update w.timerMap (w.heap p).Title none } (some p)

/-- The method `Timer.CancelOnce`. -/
def CancelOnce (w : World) (t : Option Nat) : World :=
  match t with
  | none => w
  | some p => { w with heap := Function.update w.heap p { w.heap p with cancelOnce := true } }

/-- The prologue of `Timer.Run` up to the entry of the loop. -/
def Run_enter (w : World) (p : Nat) : World :=
  if (w.heap p).running then w
  else { w with
    heap := Function.update w.heap p { w.heap p with running := true, cancel := some w.nChans }
    chans := Function.update w.chans w.nChans false
    nChans := w.nChans + 1
    loops := Function.update w.loops p (w.loops p + 1) }

/-- A created goroutine starts: `go t.Run()` reaches the prologue of `Run`. -/
def goStart (w : World) (p : Nat) : World :=
  Run_enter { w with ready := w.ready.erase p } p

/-- The branch `case <-timer.C` of the loop of `Run`: the wait has elapsed. -/
def Run_fire (w : World) (p : Nat) : Except Fault World :=
  if (w.heap p).timeType = disposable then
    match DeleteTimer { w with calls := w.calls ++ [(w.heap p).f] } (some p) with
    | .error e => .error e
    | .ok w1 => .ok { w1 with loops := Function.update w1.loops p (w1.loops p - 1) }
  else if (w.heap p).cancelOnce then
    .ok { w with heap := Function.update w.heap p { w.heap p with cancelOnce := false } }
  else
    .ok { w with calls := w.calls ++ [(w.heap p).f] }

/-- The branch `case <-t.cancel` of the loop of `Run`: the goroutine returns. -/
def Run_cancelled (w : World) (p : Nat) : World :=
  { w with loops := Function.update w.loops p (w.loops p - 1) }

/-- A goroutine is inside the loop of `Run` of the timer, so a firing step can be taken. -/
def canFire (w : World) (p : Nat) : Bool := decide (0 < w.loops p)

/-- The call `timerMap[ts[choice-1]].DeleteTimer()` of `delTimer`, for the chosen title. -/
def delTimer (w : World) (title : String) : Except Fault World :=
  DeleteTimer w (w.timerMap title)

/-- The call `timerMap[ts[choice-1]].CancelOnce()` of `setRepeatTimerOnce`, for the chosen
title. -/
def setRepeatTimerOnce (w : World) (title : String) : World :=
  CancelOnce w (w.timerMap title)

/-! ## Concrete inputs used in worked examples -/

/-- A daily reminder at 09:00:00, as `setRepeatTimer` builds it from the input `09:00:00`. -/
def sched0900 : Timer := NewTicker "standup" repeat_ (Date 0 1 1 9 0 0 0 UTC) 7

/-- An interval timer of 1 h 30 min 15 s. -/
def every013015 : Timer := NewTicker "stretch" ticker (Date 0 1 1 1 30 15 0 UTC) 8

/-- A one-shot reminder at 2024-03-10 10:01:00 UTC. -/
def oneShot1001 : Timer := NewTicker "call" disposable (Date 2024 3 10 10 1 0 0 UTC) 9

/-- The instant 2024-03-10 08:00:00 UTC. -/
def at0800 : Time := Date 2024 3 10 8 0 0 0 UTC

/-- The instant 2024-03-10 10:00:00 UTC. -/
def at1000 : Time := Date 2024 3 10 10 0 0 0 UTC

/-- The instant 2024-03-10 10:02:00 UTC. -/
def at1002 : Time := Date 2024 3 10 10 2 0 0 UTC

/-- The instant 2024-03-10 23:30:00 UTC on a clock eight hours east of UTC, where it is
2024-03-11 07:30:00. -/
def at0730east : Time := ⟨(Date 2024 3 10 23 30 0 0 UTC).sec, 0, FixedZone 28800⟩

/-- A second daily reminder whose title collides with that of `sched0900`. -/
def sched1800 : Timer := NewTicker "standup" repeat_ (Date 0 1 1 18 0 0 0 UTC) 10

/-- The state after `AddTicker` of the daily reminder, its goroutine not yet started. -/
def worldAdded : World := AddTicker World.init sched0900

/-- The state after the goroutine of the daily reminder has entered the loop of `Run`. -/
def worldRunning : World := goStart worldAdded 0

/-- The state with the one-shot reminder registered and its goroutine in the loop. -/
def worldOneShot : World := goStart (AddTicker World.init oneShot1001) 0

/-- The state with the daily and the one-shot reminder both registered and running. -/
def worldTwo : World := goStart (AddTicker worldRunning oneShot1001) 1

/-- Well-formed program states: registered pointers are allocated and registered under
their own title, channels held by timers are allocated, a timer whose `running` flag is set
holds a channel that is open, and no two timers hold the same channel. -/
structure WF (w : World) : Prop where
  reg_ptr : ∀ k p, w.timerMap k = some p → p < w.nTimers ∧ (w.heap p).Title = k
  chan_alloc : ∀ p c, (w.heap p).cancel = some c → c < w.nChans
  running_open : ∀ p, (w.heap p).running = true →
    ∃ c, (w.heap p).cancel = some c ∧ w.chans c = false
  no_alias : ∀ p q c, (w.heap p).cancel = some c → (w.heap q).cancel = some c → p = q

/-- States the program can be in: from the initial state by registering timers built by
`NewTicker`, by goroutines starting, firing or observing cancellation, and by calls of the
methods that return normally. -/
inductive Reachable : World → Prop
  | init : Reachable World.init
  | add (w : World) (title : String) (timeType : Int) (time : Time) (f : Nat) :
      Reachable w → Reachable (AddTicker w (NewTicker title timeType time f))
  | start (w : World) (p : Nat) : Reachable w → Reachable (goStart w p)
  | run (w : World) (p : Nat) : Reachable w → Reachable (Run_enter w p)
  | fire (w w1 : World) (p : Nat) : Reachable w → Run_fire w p = .ok w1 → Reachable w1
  | cancelled (w : World) (p : Nat) : Reachable w → Reachable (Run_cancelled w p)
  | cancel (w w1 : World) (t : Option Nat) : Reachable w → Cancel w t = .ok w1 → Reachable w1
  | delete (w w1 : World) (t : Option Nat) :
      Reachable w → DeleteTimer w t = .ok w1 → Reachable w1
  | once (w : World) (t : Option Nat) : Reachable w → Reachable (CancelOnce w t)

/-! ## Facts about the `time` fragment -/

theorem Hour_range (t : Time) : 0 ≤ t.Hour ∧ t.Hour < 24 := by
  unfold Time.Hour secondsPerDay
  omega

theorem Minute_range (t : Time) : 0 ≤ t.Minute ∧ t.Minute < 60 := by
  unfold Time.Minute
  omega

theorem Second_range (t : Time) : 0 ≤ t.Second ∧ t.Second < 60 := by
  unfold Time.Second
  omega

theorem wrap64_of_range (x : Int) (h1 : -9223372036854775808 ≤ x) (h2 : x ≤ 9223372036854775807) :
    wrap64 x = x := by
  unfold wrap64
  omega

/-- Adding a duration moves the instant by exactly that many nanoseconds. -/
theorem unixNano_Add (t : Time) (d : Duration) : (t.Add d).unixNano = t.unixNano + d := by
  have h := Int.tmod_add_tdiv d 1000000000
  unfold Time.Add Time.unixNano
  simp only
  split_ifs <;> simp only <;> omega

theorem loc_Add (t : Time) (d : Duration) : (t.Add d).loc = t.loc := by
  unfold Time.Add
  simp only
  split_ifs <;> rfl

/-- The interval of a ticker-kind timer, computed without overflow. -/
theorem tick_exact (a : Time) :
    wrap64 (wrap64 (wrap64 (a.Hour * Hour) + wrap64 (a.Minute * Minute))
      + wrap64 (a.Second * Second))
    = (a.Hour * 3600 + a.Minute * 60 + a.Second) * 1000000000 := by
  obtain ⟨h1, h2⟩ := Hour_range a
  obtain ⟨m1, m2⟩ := Minute_range a
  obtain ⟨s1, s2⟩ := Second_range a
  have e1 : wrap64 (a.Hour * Hour) = a.Hour * 3600000000000 := by
    rw [wrap64_of_range] <;> simp only [Hour, Minute, Second] <;> omega
  have e2 : wrap64 (a.Minute * Minute) = a.Minute * 60000000000 := by
    rw [wrap64_of_range] <;> simp only [Hour, Minute, Second] <;> omega
  have e3 : wrap64 (a.Second * Second) = a.Second * 1000000000 := by
    rw [wrap64_of_range] <;> simp only [Hour, Minute, Second] <;> omega
  rw [e1, e2, e3, wrap64_of_range (a.Hour * 3600000000000 + a.Minute * 60000000000)
    (by omega) (by omega), wrap64_of_range _ (by omega) (by omega)]
  omega

theorem Date_nsec_zero (year month day hour min sec : Int) (loc : Location) :
    (Date year month day hour min sec 0 loc).nsec = 0 := by
  simp [Date, norm]

/-- For well-formed nanosecond fields, `Before` is the strict order of instants. -/
theorem Before_iff (t u : Time) (ht : 0 ≤ t.nsec ∧ t.nsec < 1000000000)
    (hu : 0 ≤ u.nsec ∧ u.nsec < 1000000000) :
    t.Before u = true ↔ t.unixNano < u.unixNano := by
  unfold Time.Before Time.unixNano
  simp only [Bool.or_eq_true, Bool.and_eq_true, decide_eq_true_eq, beq_iff_eq]
  omega

/-- The duration handed to `time.NewTimer` is the time by which the clock is past the next
firing, not the time that remains until it. -/
theorem Run_sub_eq (t : Timer) (now1 now2 : Time)
    (h1 : minDuration ≤ now2.unixNano - (nextTime t now1).unixNano)
    (h2 : now2.unixNano - (nextTime t now1).unixNano ≤ maxDuration) :
    Run_sub t now1 now2 = now2.unixNano - (nextTime t now1).unixNano := by
  unfold Time.unixNano minDuration at h1
  unfold Time.unixNano maxDuration at h2
  simp only [Run_sub, Since, Time.Sub, Time.unixNano, Second, minDuration, maxDuration]
  unfold Duration at *
  split_ifs <;> omega

/-! ## The calendar computations are mutually inverse -/

theorem isLeap_iff (y : Int) :
    isLeap y = true ↔ y % 4 = 0 ∧ (y % 100 ≠ 0 ∨ y % 400 = 0) := by
  simp [isLeap]

theorem daysSinceEpoch_decomp (n400 n100 n4 n1 : Int) (h100 : 0 ≤ n100 ∧ n100 ≤ 3)
    (h4 : 0 ≤ n4 ∧ n4 ≤ 24) (h1 : 0 ≤ n1 ∧ n1 ≤ 3) :
    daysSinceEpoch (400 * n400 + 100 * n100 + 4 * n4 + n1 + 1)
      = 146097 * n400 + 36524 * n100 + 1461 * n4 + 365 * n1 := by
  simp only [daysSinceEpoch, daysPer400Years, daysPer100Years, daysPer4Years]
  have e1 : (400 * n400 + 100 * n100 + 4 * n4 + n1 + 1 - 1) / 400 = n400 := by omega
  rw [e1]
  have e2 : (400 * n400 + 100 * n100 + 4 * n4 + n1 + 1 - 1 - 400 * n400) / 100 = n100 := by
    omega
  rw [e2]
  have e3 : (400 * n400 + 100 * n100 + 4 * n4 + n1 + 1 - 1 - 400 * n400 - 100 * n100) / 4
      = n4 := by omega
  rw [e3]
  omega

/-- The year and day of the year computed by `absDate` count back to the same day number,
and the day of the year is within the length of that year. -/
theorem absYearDay_spec (a : Int) :
    daysSinceEpoch (absYearDay a).1 + (absYearDay a).2 = a / 86400 ∧
    0 ≤ (absYearDay a).2 ∧
    ((absYearDay a).2 < 365 ∨ ((absYearDay a).2 = 365 ∧ isLeap (absYearDay a).1 = true)) := by
  simp only [absYearDay, secondsPerDay, daysPer400Years, daysPer100Years, daysPer4Years]
  generalize a / 86400 = d
  obtain ⟨n400, hn400⟩ : ∃ n, n = d / 146097 := ⟨_, rfl⟩
  rw [← hn400]
  obtain ⟨d1, hd1⟩ : ∃ x, x = d - 146097 * n400 := ⟨_, rfl⟩
  rw [← hd1]
  have bd1 : 0 ≤ d1 ∧ d1 < 146097 := by omega
  obtain ⟨n100, hn100⟩ : ∃ n, n = d1 / 36524 - d1 / 36524 / 4 := ⟨_, rfl⟩
  rw [← hn100]
  have bn100 : 0 ≤ n100 ∧ n100 ≤ 3 := by omega
  obtain ⟨d2, hd2⟩ : ∃ x, x = d1 - 36524 * n100 := ⟨_, rfl⟩
  rw [← hd2]
  have bd2 : 0 ≤ d2 ∧ d2 ≤ 36524 ∧ (n100 < 3 → d2 < 36524) := by omega
  obtain ⟨n4, hn4⟩ : ∃ n, n = d2 / 1461 := ⟨_, rfl⟩
  rw [← hn4]
  have bn4 : 0 ≤ n4 ∧ n4 ≤ 24 := by omega
  obtain ⟨d3, hd3⟩ : ∃ x, x = d2 - 1461 * n4 := ⟨_, rfl⟩
  rw [← hd3]
  have bd3 : 0 ≤ d3 ∧ d3 ≤ 1460 ∧ (n4 = 24 → n100 < 3 → d3 < 1460) := by omega
  obtain ⟨n1, hn1⟩ : ∃ n, n = d3 / 365 - d3 / 365 / 4 := ⟨_, rfl⟩
  rw [← hn1]
  have bn1 : 0 ≤ n1 ∧ n1 ≤ 3 := by omega
  rw [daysSinceEpoch_decomp n400 n100 n4 n1 bn100 bn4 bn1, isLeap_iff]
  refine ⟨by omega, by omega, ?_⟩
  by_cases hlt : d3 - 365 * n1 < 365
  · exact Or.inl hlt
  · right
    have hn13 : n1 = 3 := by omega
    have hd3e : d3 = 1460 := by omega
    subst hn13
    refine ⟨by omega, by omega, ?_⟩
    by_cases h24 : n4 = 24
    · have : n100 = 3 := by
        by_contra hne
        have := bd3.2.2 h24 (by omega)
        omega
      right
      omega
    · left
      omega

theorem daysBefore_vals :
    daysBefore 0 = 0 ∧ daysBefore 1 = 31 ∧ daysBefore 2 = 59 ∧ daysBefore 3 = 90 ∧
    daysBefore 4 = 120 ∧ daysBefore 5 = 151 ∧ daysBefore 6 = 181 ∧ daysBefore 7 = 212 ∧
    daysBefore 8 = 243 ∧ daysBefore 9 = 273 ∧ daysBefore 10 = 304 ∧ daysBefore 11 = 334 ∧
    daysBefore 12 = 365 := by
  decide

/-- The month estimate `day / 31` of `absDate` and its correction, on a day number of a
365-day year. -/
theorem month_estimate (day : Int) (r : Int × Int)
    (hr : r = if day >= daysBefore (day / 31 + 1)
      then (day / 31 + 2, day - daysBefore (day / 31 + 1) + 1)
      else (day / 31 + 1, day - daysBefore (day / 31) + 1))
    (h0 : 0 ≤ day) (h1 : day < 365) :
    1 ≤ r.1 ∧ r.1 ≤ 12 ∧ 1 ≤ r.2 ∧ r.2 ≤ 31 ∧
    daysBefore (r.1 - 1) + (r.2 - 1) = day ∧ (59 ≤ day ↔ 3 ≤ r.1) := by
  obtain ⟨v0, v1, v2, v3, v4, v5, v6, v7, v8, v9, v10, v11, v12⟩ := daysBefore_vals
  obtain ⟨k, hk⟩ : ∃ k, day / 31 = k := ⟨_, rfl⟩
  have hk0 : 0 ≤ k := by omega
  have hk1 : k ≤ 11 := by omega
  subst hr
  rw [hk]
  interval_cases k
  all_goals simp only [Int.reduceAdd, Int.reduceSub, v0, v1, v2, v3, v4, v5, v6, v7, v8, v9,
    v10, v11, v12]
  all_goals split_ifs
  all_goals simp only [Int.reduceAdd, Int.reduceSub, v0, v1, v2, v3, v4, v5, v6, v7, v8, v9,
    v10, v11, v12]
  all_goals omega

/-- The month and day computed by `absDate` count back to the same day of the year. -/
theorem monthDay_spec (year yday : Int) (h0 : 0 ≤ yday)
    (h1 : yday < 365 ∨ (yday = 365 ∧ isLeap year = true)) :
    1 ≤ (monthDay year yday).1 ∧ (monthDay year yday).1 ≤ 12 ∧
    1 ≤ (monthDay year yday).2 ∧ (monthDay year yday).2 ≤ 31 ∧
    daysBefore ((monthDay year yday).1 - 1)
      + (if (isLeap year && decide ((monthDay year yday).1 ≥ 3)) = true then 1 else 0)
      + ((monthDay year yday).2 - 1) = yday := by
  cases hL : isLeap year with
  | false =>
    have hlt : yday < 365 := by
      rcases h1 with h | ⟨_, h⟩
      · exact h
      · rw [hL] at h
        cases h
    have e : monthDay year yday = if yday >= daysBefore (yday / 31 + 1)
        then (yday / 31 + 2, yday - daysBefore (yday / 31 + 1) + 1)
        else (yday / 31 + 1, yday - daysBefore (yday / 31) + 1) := by
      simp [monthDay, hL]
    obtain ⟨a1, a2, a3, a4, a5, _⟩ := month_estimate yday _ e h0 hlt
    refine ⟨a1, a2, a3, a4, ?_⟩
    simp only [Bool.false_and, Bool.false_eq_true, if_false]
    omega
  | true =>
    by_cases h59 : yday = 59
    · subst h59
      have e : monthDay year 59 = (2, 29) := by
        simp [monthDay, hL]
      rw [e]
      simp [daysBefore_vals.2.1]
    · by_cases hgt : yday > 59
      · have e : monthDay year yday = if yday - 1 >= daysBefore ((yday - 1) / 31 + 1)
            then ((yday - 1) / 31 + 2, yday - 1 - daysBefore ((yday - 1) / 31 + 1) + 1)
            else ((yday - 1) / 31 + 1, yday - 1 - daysBefore ((yday - 1) / 31) + 1) := by
          simp [monthDay, hL, h59, hgt]
        have hlt : yday - 1 < 365 := by
          rcases h1 with h | ⟨h, _⟩ <;> omega
        obtain ⟨a1, a2, a3, a4, a5, a6⟩ := month_estimate (yday - 1) _ e (by omega) hlt
        have h3 : 3 ≤ (monthDay year yday).1 := a6.mp (by omega)
        refine ⟨a1, a2, a3, a4, ?_⟩
        have hd : decide ((monthDay year yday).1 ≥ 3) = true := by simpa using h3
        simp only [hd, Bool.and_self, if_true]
        omega
      · have e : monthDay year yday = if yday >= daysBefore (yday / 31 + 1)
            then (yday / 31 + 2, yday - daysBefore (yday / 31 + 1) + 1)
            else (yday / 31 + 1, yday - daysBefore (yday / 31) + 1) := by
          have hle : ¬ 59 < yday := by omega
          simp [monthDay, hL, h59, hle]
        obtain ⟨a1, a2, a3, a4, a5, a6⟩ := month_estimate yday _ e h0 (by omega)
        have h3 : ¬ 3 ≤ (monthDay year yday).1 := fun h => by
          have := a6.mpr h
          omega
        refine ⟨a1, a2, a3, a4, ?_⟩
        have hd : decide ((monthDay year yday).1 ≥ 3) = false := by simpa using h3
        simp only [hd, Bool.and_false, Bool.false_eq_true, if_false]
        omega

theorem norm_id (hi lo base : Int) (h0 : 0 ≤ lo) (h1 : lo < base) :
    norm hi lo base = (hi, lo) := by
  have h2 : ¬ lo < 0 := by omega
  have h3 : ¬ lo ≥ base := by omega
  simp [norm, h2, h3]

/-- In a location without zone transitions, `time.Date` on in-range fields yields the time
whose local second count is the day number of the date times 86400 plus the clock. -/
theorem Date_abs (loc : Location) (o : Int) (hloc : ∀ x, (loc.lookup x).1 = o)
    (year month day hour min sec nsec : Int)
    (hmo : 1 ≤ month ∧ month ≤ 12) (hh : 0 ≤ hour ∧ hour < 24) (hmi : 0 ≤ min ∧ min < 60)
    (hs : 0 ≤ sec ∧ sec < 60) (hn : 0 ≤ nsec ∧ nsec < 1000000000) :
    (Date year month day hour min sec nsec loc).abs
      = (daysSinceEpoch year + daysBefore (month - 1)
          + (if (isLeap year && decide (month ≥ 3)) = true then 1 else 0) + (day - 1)) * 86400
        + (hour * 3600 + min * 60 + sec) ∧
    (Date year month day hour min sec nsec loc).nsec = nsec ∧
    (Date year month day hour min sec nsec loc).loc = loc := by
  have n1 : norm year (month - 1) 12 = (year, month - 1) :=
    norm_id _ _ _ (by omega) (by omega)
  have n2 : norm sec nsec 1000000000 = (sec, nsec) := norm_id _ _ _ hn.1 hn.2
  have n3 : norm min sec 60 = (min, sec) := norm_id _ _ _ hs.1 hs.2
  have n4 : norm hour min 60 = (hour, min) := norm_id _ _ _ hmi.1 hmi.2
  have n5 : norm day hour 24 = (day, hour) := norm_id _ _ _ hh.1 hh.2
  simp only [Date, Time.abs, n1, n2, n3, n4, n5, hloc, sub_add_cancel, add_sub_cancel_right,
    secondsPerDay]
  refine ⟨?_, trivial, trivial⟩
  by_cases ho : o = 0
  · simp [ho]
  · simp [ho]

theorem absYearDay_congr (a b : Int) (h : a / 86400 = b / 86400) :
    absYearDay a = absYearDay b := by
  simp only [absYearDay, secondsPerDay, h]

/-- In a location without zone transitions, the time built by `time.Date` from the date of
`t` and an in-range clock lies on the calendar day of `t` and shows that clock. -/
theorem Date_same_day (o : Int) (t : Time) (hloc : ∀ x, (t.loc.lookup x).1 = o)
    (hour min sec : Int) (hh : 0 ≤ hour ∧ hour < 24) (hmi : 0 ≤ min ∧ min < 60)
    (hs : 0 ≤ sec ∧ sec < 60) :
    (Date t.Year t.Month t.Day hour min sec 0 t.Location).abs
      = t.abs / 86400 * 86400 + (hour * 3600 + min * 60 + sec) ∧
    (Date t.Year t.Month t.Day hour min sec 0 t.Location).Year = t.Year ∧
    (Date t.Year t.Month t.Day hour min sec 0 t.Location).Month = t.Month ∧
    (Date t.Year t.Month t.Day hour min sec 0 t.Location).Day = t.Day ∧
    (Date t.Year t.Month t.Day hour min sec 0 t.Location).Hour = hour ∧
    (Date t.Year t.Month t.Day hour min sec 0 t.Location).Minute = min ∧
    (Date t.Year t.Month t.Day hour min sec 0 t.Location).Second = sec := by
  obtain ⟨a1, a2, a3⟩ := absYearDay_spec t.abs
  obtain ⟨b1, b2, _, _, b5⟩ := monthDay_spec _ _ a2 a3
  obtain ⟨c1, _, _⟩ := Date_abs t.loc o hloc t.Year t.Month t.Day hour min sec 0 ⟨b1, b2⟩ hh hmi hs
    (by omega)
  have key : (Date t.Year t.Month t.Day hour min sec 0 t.Location).abs
      = t.abs / 86400 * 86400 + (hour * 3600 + min * 60 + sec) := by
    rw [Time.Location, c1]
    simp only [Time.Year, Time.Month, Time.Day]
    rw [← a1]
    omega
  have hdiv : (Date t.Year t.Month t.Day hour min sec 0 t.Location).abs / 86400
      = t.abs / 86400 := by
    rw [key]
    omega
  have hyd := absYearDay_congr _ _ hdiv
  refine ⟨key, ?_, ?_, ?_, ?_, ?_, ?_⟩
  · show (absYearDay _).1 = (absYearDay _).1
    rw [hyd]
  · show (monthDay (absYearDay _).1 (absYearDay _).2).1 = (monthDay _ _).1
    rw [hyd]
  · show (monthDay (absYearDay _).1 (absYearDay _).2).2 = (monthDay _ _).2
    rw [hyd]
  · simp only [Time.Hour, secondsPerDay]
    rw [key]
    omega
  · simp only [Time.Minute]
    rw [key]
    omega
  · simp only [Time.Second]
    rw [key]
    omega

/-- In a location without zone transitions, `AddDate(0, 0, 1)` moves a time by exactly
86400 seconds. -/
theorem AddDate_one_day (o : Int) (u : Time) (hloc : ∀ x, (u.loc.lookup x).1 = o)
    (hn : 0 ≤ u.nsec ∧ u.nsec < 1000000000) :
    (u.AddDate 0 0 1).sec = u.sec + 86400 ∧ (u.AddDate 0 0 1).nsec = u.nsec ∧
    (u.AddDate 0 0 1).loc = u.loc := by
  obtain ⟨a1, a2, a3⟩ := absYearDay_spec u.abs
  obtain ⟨b1, b2, _, _, b5⟩ := monthDay_spec _ _ a2 a3
  obtain ⟨c1, c2, c3⟩ := Date_abs u.loc o hloc u.Year u.Month (u.Day + 1) u.Hour u.Minute
    u.Second u.nsec ⟨b1, b2⟩ (Hour_range u) (Minute_range u) (Second_range u) hn
  have e : u.AddDate 0 0 1
      = Date u.Year u.Month (u.Day + 1) u.Hour u.Minute u.Second u.nsec u.loc := by
    simp [Time.AddDate, Time.Location]
  rw [e]
  refine ⟨?_, c2, c3⟩
  have hclock : u.Hour * 3600 + u.Minute * 60 + u.Second = u.abs % 86400 := by
    simp only [Time.Hour, Time.Minute, Time.Second, secondsPerDay]
    omega
  have habs : (Date u.Year u.Month (u.Day + 1) u.Hour u.Minute u.Second u.nsec u.loc).abs
      = u.abs + 86400 := by
    rw [c1, hclock]
    simp only [Time.Year, Time.Month, Time.Day]
    omega
  simp only [Time.abs, c3, hloc] at habs
  omega

/-! ## Preservation of well-formedness -/

theorem WF_init : WF World.init := by
  constructor <;> simp [World.init, zeroTimer]

theorem NewTicker_fresh (title : String) (timeType : Int) (time : Time) (f : Nat) :
    (NewTicker title timeType time f).running = false ∧
    (NewTicker title timeType time f).cancel = none := by
  unfold NewTicker
  split_ifs <;> simp [zeroTimer]

theorem WF_AddTicker (w : World) (t : Timer) (h : WF w) (hr : t.running = false)
    (hc : t.cancel = none) : WF (AddTicker w t) := by
  constructor
  · intro k p hk
    simp only [AddTicker, Function.update_apply] at hk ⊢
    split_ifs at hk with h1
    · simp only [Option.some.injEq] at hk
      subst hk
      simp [h1]
    · obtain ⟨h2, h3⟩ := h.reg_ptr k p hk
      have : p ≠ w.nTimers := by omega
      simp only [this, if_false]
      exact ⟨by omega, h3⟩
  · intro p c hp
    simp only [AddTicker, Function.update_apply] at hp ⊢
    split_ifs at hp with h1
    · simp [hc] at hp
    · exact h.chan_alloc p c hp
  · intro p hp
    simp only [AddTicker, Function.update_apply] at hp ⊢
    split_ifs at hp with h1
    · simp [hr] at hp
    · simp only [h1, if_false]
      exact h.running_open p hp
  · intro p q c hp hq
    simp only [AddTicker, Function.update_apply] at hp hq
    split_ifs at hp with h1
    · simp [hc] at hp
    · split_ifs at hq with h2
      · simp [hc] at hq
      · exact h.no_alias p q c hp hq

theorem WF_Run_enter (w : World) (p : Nat) (h : WF w) : WF (Run_enter w p) := by
  unfold Run_enter
  split_ifs with hrun
  · exact h
  · constructor
    · intro k q hk
      obtain ⟨h2, h3⟩ := h.reg_ptr k q hk
      refine ⟨h2, ?_⟩
      simp only [Function.update_apply]
      split_ifs with h1
      · subst h1
        exact h3
      · exact h3
    · intro q c hq
      simp only [Function.update_apply] at hq ⊢
      split_ifs at hq with h1
      · simp only [Option.some.injEq] at hq
        omega
      · have := h.chan_alloc q c hq
        omega
    · intro q hq
      simp only [Function.update_apply] at hq ⊢
      split_ifs at hq with h1
      · exact ⟨w.nChans, by simp [h1], by simp⟩
      · obtain ⟨c, hc1, hc2⟩ := h.running_open q hq
        have := h.chan_alloc q c hc1
        have hne : c ≠ w.nChans := by omega
        exact ⟨c, by simp [h1, hc1], by simp [hne, hc2]⟩
    · intro q r c hq hr
      simp only [Function.update_apply] at hq hr
      split_ifs at hq with h1 <;> split_ifs at hr with h2
      · omega
      · simp only [Option.some.injEq] at hq
        have := h.chan_alloc r c hr
        omega
      · simp only [Option.some.injEq] at hr
        have := h.chan_alloc q c hq
        omega
      · exact h.no_alias q r c hq hr

theorem WF_goStart (w : World) (p : Nat) (h : WF w) : WF (goStart w p) := by
  unfold goStart
  apply WF_Run_enter
  exact ⟨h.reg_ptr, h.chan_alloc, h.running_open, h.no_alias⟩

theorem WF_Cancel (w w1 : World) (t : Option Nat) (h : WF w) (hc : Cancel w t = .ok w1) :
    WF w1 := by
  unfold Cancel at hc
  split at hc
  · simp only [Except.ok.injEq] at hc
    subst hc
    exact h
  · rename_i p
    split at hc
    · simp at hc
    · rename_i c hpc
      split_ifs at hc with hcl
      simp only [Except.ok.injEq] at hc
      subst hc
      constructor
      · intro k q hk
        obtain ⟨h2, h3⟩ := h.reg_ptr k q hk
        refine ⟨h2, ?_⟩
        simp only [Function.update_apply]
        split_ifs with h1
        · subst h1
          exact h3
        · exact h3
      · intro q c1 hq
        simp only [Function.update_apply] at hq ⊢
        split_ifs at hq with h1
        · subst h1
          exact h.chan_alloc q c1 hq
        · exact h.chan_alloc q c1 hq
      · intro q hq
        simp only [Function.update_apply] at hq ⊢
        split_ifs at hq with h1
        obtain ⟨c1, hc1, hc2⟩ := h.running_open q hq
        have hne : c1 ≠ c := by
          intro e
          subst e
          exact h1 (h.no_alias q p c1 hc1 hpc)
        exact ⟨c1, by simp [h1, hc1], by simp [hne, hc2]⟩
      · intro q r c1 hq hr
        simp only [Function.update_apply] at hq hr
        have hq1 : (w.heap q).cancel = some c1 := by
          split_ifs at hq with h1
          · subst h1
            exact hq
          · exact hq
        have hr1 : (w.heap r).cancel = some c1 := by
          split_ifs at hr with h1
          · subst h1
            exact hr
          · exact hr
        exact h.no_alias q r c1 hq1 hr1

theorem WF_DeleteTimer (w w1 : World) (t : Option Nat) (h : WF w)
    (hd : DeleteTimer w t = .ok w1) : WF w1 := by
  unfold DeleteTimer at hd
  split at hd
  · simp only [Except.ok.injEq] at hd
    subst hd
    exact h
  · rename_i p
    refine WF_Cancel _ w1 (some p) ?_ hd
    constructor
    · intro k q hk
      simp only [Function.update_apply] at hk
      split_ifs at hk
      exact h.reg_ptr k q hk
    · exact h.chan_alloc
    · exact h.running_open
    · exact h.no_alias

theorem WF_CancelOnce (w : World) (t : Option Nat) (h : WF w) : WF (CancelOnce w t) := by
  unfold CancelOnce
  split
  · exact h
  · rename_i p
    constructor
    · intro k q hk
      obtain ⟨h2, h3⟩ := h.reg_ptr k q hk
      refine ⟨h2, ?_⟩
      simp only [Function.update_apply]
      split_ifs with h1
      · subst h1
        exact h3
      · exact h3
    · intro q c hq
      simp only [Function.update_apply] at hq
      split_ifs at hq with h1
      · subst h1
        exact h.chan_alloc q c hq
      · exact h.chan_alloc q c hq
    · intro q hq
      simp only [Function.update_apply] at hq ⊢
      split_ifs at hq with h1
      · subst h1
        simpa using h.running_open q hq
      · simpa [h1] using h.running_open q hq
    · intro q r c hq hr
      simp only [Function.update_apply] at hq hr
      have hq1 : (w.heap q).cancel = some c := by
        split_ifs at hq with h1
        · subst h1
          exact hq
        · exact hq
      have hr1 : (w.heap r).cancel = some c := by
        split_ifs at hr with h1
        · subst h1
          exact hr
        · exact hr
      exact h.no_alias q r c hq1 hr1

theorem WF_Run_cancelled (w : World) (p : Nat) (h : WF w) : WF (Run_cancelled w p) :=
  ⟨h.reg_ptr, h.chan_alloc, h.running_open, h.no_alias⟩

theorem WF_Run_fire (w w1 : World) (p : Nat) (h : WF w) (hf : Run_fire w p = .ok w1) :
    WF w1 := by
  unfold Run_fire at hf
  split_ifs at hf with hd ho
  · split at hf
    · simp at hf
    · rename_i w2 hdel
      simp only [Except.ok.injEq] at hf
      subst hf
      have h2 : WF w2 := WF_DeleteTimer { w with calls := w.calls ++ [(w.heap p).f] } w2 (some p)
        ⟨h.reg_ptr, h.chan_alloc, h.running_open, h.no_alias⟩ hdel
      exact ⟨h2.reg_ptr, h2.chan_alloc, h2.running_open, h2.no_alias⟩
  · simp only [Except.ok.injEq] at hf
    subst hf
    constructor
    · intro k q hk
      obtain ⟨h2, h3⟩ := h.reg_ptr k q hk
      refine ⟨h2, ?_⟩
      simp only [Function.update_apply]
      split_ifs with h1
      · subst h1
        exact h3
      · exact h3
    · intro q c hq
      simp only [Function.update_apply] at hq
      split_ifs at hq with h1
      · subst h1
        exact h.chan_alloc q c hq
      · exact h.chan_alloc q c hq
    · intro q hq
      simp only [Function.update_apply] at hq ⊢
      split_ifs at hq with h1
      · subst h1
        simpa using h.running_open q hq
      · simpa [h1] using h.running_open q hq
    · intro q r c hq hr
      simp only [Function.update_apply] at hq hr
      have hq1 : (w.heap q).cancel = some c := by
        split_ifs at hq with h1
        · subst h1
          exact hq
        · exact hq
      have hr1 : (w.heap r).cancel = some c := by
        split_ifs at hr with h1
        · subst h1
          exact hr
        · exact hr
      exact h.no_alias q r c hq1 hr1
  · simp only [Except.ok.injEq] at hf
    subst hf
    exact ⟨h.reg_ptr, h.chan_alloc, h.running_open, h.no_alias⟩

/-- Every reachable state is well-formed. -/
theorem Reachable_WF (w : World) (h : Reachable w) : WF w := by
  induction h with
  | init => exact WF_init
  | add w title timeType time f _ ih =>
    exact WF_AddTicker w _ ih (NewTicker_fresh title timeType time f).1
      (NewTicker_fresh title timeType time f).2
  | start w p _ ih => exact WF_goStart w p ih
  | run w p _ ih => exact WF_Run_enter w p ih
  | fire w w1 p _ hf ih => exact WF_Run_fire w w1 p ih hf
  | cancelled w p _ ih => exact WF_Run_cancelled w p ih
  | cancel w w1 t _ hc ih => exact WF_Cancel w w1 t ih hc
  | delete w w1 t _ hd ih => exact WF_DeleteTimer w w1 t ih hd
  | once w t _ ih => exact WF_CancelOnce w t ih

/-! ## Outcomes of the methods on a running timer -/

theorem Cancel_open (w : World) (p c : Nat) (hc : (w.heap p).cancel = some c)
    (ho : w.chans c = false) :
    Cancel w (some p) = .ok { w with
      chans := Function.update w.chans c true
      heap := Function.update w.heap p { w.heap p with running := false } } := by
  simp [Cancel, hc, ho]

theorem DeleteTimer_open (w : World) (p c : Nat) (hc : (w.heap p).cancel = some c)
    (ho : w.chans c = false) :
    DeleteTimer w (some p) = .ok { w with
      timerMap := Function.update w.timerMap (w.heap p).Title none
      chans := Function.update w.chans c true
      heap := Function.update w.heap p { w.heap p with running := false } } := by
  simp [DeleteTimer, Cancel, hc, ho]

theorem CancelOnce_idem (w : World) (t : Option Nat) :
    CancelOnce (CancelOnce w t) t = CancelOnce w t := by
  cases t with
  | none => rfl
  | some p => simp [CancelOnce]

theorem CancelOnce_iterate (w : World) (t : Option Nat) (k : Nat) :
    (fun v => CancelOnce v t)^[k + 1] w = CancelOnce w t := by
  induction k with
  | zero => rfl
  | succ n ih =>
    rw [Function.iterate_succ_apply', ih, CancelOnce_idem]

theorem Run_fire_disposable (w : World) (p c : Nat) (hd : (w.heap p).timeType = disposable)
    (hc : (w.heap p).cancel = some c) (ho : w.chans c = false) :
    Run_fire w p = .ok { w with
      calls := w.calls ++ [(w.heap p).f]
      timerMap := Function.update w.timerMap (w.heap p).Title none
      chans := Function.update w.chans c true
      heap := Function.update w.heap p { w.heap p with running := false }
      loops := Function.update w.loops p (w.loops p - 1) } := by
  have e := DeleteTimer_open { w with calls := w.calls ++ [(w.heap p).f] } p c hc ho
  unfold Run_fire
  rw [if_pos hd, e]

theorem Run_fire_skip (w : World) (p : Nat) (hd : ¬ (w.heap p).timeType = disposable)
    (hs : (w.heap p).cancelOnce = true) :
    Run_fire w p = .ok { w with
      heap := Function.update w.heap p { w.heap p with cancelOnce := false } } := by
  simp only [Run_fire, hd, hs, if_true, if_false]

theorem Run_fire_call (w : World) (p : Nat) (hd : ¬ (w.heap p).timeType = disposable)
    (hs : (w.heap p).cancelOnce = false) :
    Run_fire w p = .ok { w with calls := w.calls ++ [(w.heap p).f] } := by
  simp [Run_fire, hd, hs]

/-! ## The claims -/

/-- C1: for a repeat-kind timer, `nextTime` builds the candidate "the date of `now` in the
location of `now`, at the stored hour, minute and second, zero nanoseconds"; it returns the
candidate when `now` is strictly before it, and the candidate plus one calendar day
(`AddDate(0, 0, 1)`) otherwise, in particular when `now` equals the candidate.  In a
location without zone transitions the candidate has the year, month and day of `now` and
the stored clock, and the calendar day added is 24 hours. -/
theorem nextTime_repeat (t : Timer) (now : Time) (h : t.timeType = repeat_)
    (hn : 0 ≤ now.nsec ∧ now.nsec < 1000000000) :
    let today := Date now.Year now.Month now.Day t.time.Hour t.time.Minute t.time.Second 0
      now.Location
    today.nsec = 0 ∧
    (now.unixNano < today.unixNano → nextTime t now = today) ∧
    (today.unixNano ≤ now.unixNano → nextTime t now = today.AddDate 0 0 1) ∧
    (∀ o, (∀ x, (now.loc.lookup x).1 = o) →
      today.Year = now.Year ∧ today.Month = now.Month ∧ today.Day = now.Day ∧
      today.Hour = t.time.Hour ∧ today.Minute = t.time.Minute ∧
      today.Second = t.time.Second ∧
      (today.AddDate 0 0 1).unixNano = today.unixNano + 86400 * 1000000000) := by
  intro today
  have hz : today.nsec = 0 := Date_nsec_zero _ _ _ _ _ _ _
  have hb := Before_iff now today hn (by omega)
  have hne : ¬ t.timeType = disposable := by
    rw [h]
    decide
  refine ⟨hz, ?_, ?_, ?_⟩
  · intro hlt
    have hb1 : now.Before today = true := hb.mpr hlt
    simp only [nextTime, hne, h, if_true, if_false]
    exact if_pos hb1
  · intro hge
    have hb1 : ¬ now.Before today = true := fun e => by
      have := hb.mp e
      omega
    simp only [nextTime, hne, h, if_true, if_false]
    exact if_neg hb1
  · intro o hloc
    obtain ⟨_, d1, d2, d3, d4, d5, d6⟩ := Date_same_day o now hloc t.time.Hour t.time.Minute
      t.time.Second (Hour_range _) (Minute_range _) (Second_range _)
    have hl : today.loc = now.loc := rfl
    obtain ⟨e1, e2, _⟩ := AddDate_one_day o today (by rw [hl]; exact hloc) (by omega)
    refine ⟨d1, d2, d3, d4, d5, d6, ?_⟩
    simp only [Time.unixNano, e1, e2]
    omega

/-- C1, worked example: the schedule 09:00:00 evaluated at 08:00:00 gives 09:00:00 of the
same day, and evaluated at 10:00:00 gives 09:00:00 of the next day; evaluated at 07:30:00 of
March 11 on a clock eight hours east of UTC it gives 09:00:00 of March 11 on that clock,
which is 01:00:00 UTC. -/
theorem nextTime_repeat_witness :
    sched0900.timeType = repeat_ ∧
    (nextTime sched0900 at0800).sec = (Date 2024 3 10 9 0 0 0 UTC).sec ∧
    (nextTime sched0900 at1000).sec = (Date 2024 3 11 9 0 0 0 UTC).sec ∧
    (nextTime sched0900 at0730east).sec = (Date 2024 3 11 1 0 0 0 UTC).sec := by
  have h8 := nextTime_repeat sched0900 at0800 (by decide) (by decide)
  have h10 := nextTime_repeat sched0900 at1000 (by decide) (by decide)
  have h7 := nextTime_repeat sched0900 at0730east (by decide) (by decide)
  refine ⟨by decide, ?_, ?_, ?_⟩
  · rw [h8.2.1 (by decide)]
    decide
  · rw [h10.2.2.1 (by decide)]
    decide
  · rw [h7.2.1 (by decide)]
    decide

/-- C2 (the code departs from it): with the next firing 60 s ahead of the clock the loop of
`Run` passes `time.Since(nextTime)`, which is minus 60 s, to `time.NewTimer`, so the wait is
zero and the firing branch is taken at once; with the next firing 60 s overdue it passes
plus 60 s and waits that long instead of resolving immediately. -/
theorem Run_sub_sign_reversed :
    (nextTime oneShot1001 at1000).unixNano - at1000.unixNano = 60 * Second ∧
    Run_sub oneShot1001 at1000 at1000 = -(60 * Second) ∧
    NewTimer_delay (Run_sub oneShot1001 at1000 at1000) = 0 ∧
    (nextTime oneShot1001 at1002).unixNano - at1002.unixNano = -(60 * Second) ∧
    NewTimer_delay (Run_sub oneShot1001 at1002 at1002) = 60 * Second := by
  decide

/-- C3: for a ticker-kind timer, `nextTime` is the instant `now` plus
`hour*3600 + minute*60 + second` seconds of the stored time, in the location of `now`; two
results computed at instants `n1` and `n2` differ by exactly `n2 - n1`. -/
theorem nextTime_ticker (t : Timer) (now : Time) (h : t.timeType = ticker) :
    (nextTime t now).unixNano
      = now.unixNano + (t.time.Hour * 3600 + t.time.Minute * 60 + t.time.Second) * 1000000000 ∧
    (nextTime t now).loc = now.loc ∧
    ∀ n1 n2 : Time,
      (nextTime t n2).unixNano - (nextTime t n1).unixNano = n2.unixNano - n1.unixNano := by
  have h1 : ¬ t.timeType = disposable := by
    rw [h]
    decide
  have h2 : ¬ t.timeType = repeat_ := by
    rw [h]
    decide
  have key : ∀ n : Time, nextTime t n
      = n.Add ((t.time.Hour * 3600 + t.time.Minute * 60 + t.time.Second) * 1000000000) := by
    intro n
    simp only [nextTime, h1, h2, if_false, tick_exact]
  refine ⟨?_, ?_, ?_⟩
  · rw [key, unixNano_Add]
  · rw [key, loc_Add]
  · intro n1 n2
    rw [key, key, unixNano_Add, unixNano_Add]
    omega

/-- C3, worked example: an interval of 1 h 30 min 15 s evaluated at 08:00:00 and at
10:00:00. -/
theorem nextTime_ticker_witness :
    every013015.timeType = ticker ∧
    (nextTime every013015 at0800).unixNano = at0800.unixNano + 5415 * 1000000000 ∧
    (nextTime every013015 at1000).unixNano - (nextTime every013015 at0800).unixNano
      = at1000.unixNano - at0800.unixNano := by
  have h := nextTime_ticker every013015 at0800 (by decide)
  refine ⟨by decide, ?_, h.2.2 at0800 at1000⟩
  rw [h.1]
  decide

/-- C4: when the wait of a running disposable timer elapses, the firing step invokes the
callback exactly once, removes the title from the registry so that no title leads to the
timer any more, leaves every other registry entry and every other timer unchanged, and
returns from `Run`: the goroutine has left the loop, and when it was the only one there no
further firing step of the timer can be taken.  The outcome is the same when `CancelOnce`
was called before. -/
theorem disposable_fire (w : World) (p : Nat) (hwf : WF w)
    (hd : (w.heap p).timeType = disposable) (hr : (w.heap p).running = true) :
    ∃ w1 w2, Run_fire w p = .ok w1 ∧
      w1.calls = w.calls ++ [(w.heap p).f] ∧
      (w1.timerMap (w.heap p).Title = none ∧ ∀ k, w1.timerMap k ≠ some p) ∧
      (∀ k, k ≠ (w.heap p).Title → w1.timerMap k = w.timerMap k) ∧
      (∀ q, q ≠ p → w1.heap q = w.heap q) ∧
      (w1.heap p).running = false ∧
      (w1.loops p = w.loops p - 1 ∧ (w.loops p = 1 → canFire w1 p = false)) ∧
      Run_fire (CancelOnce w (some p)) p = .ok w2 ∧
      w2.calls = w1.calls ∧ w2.timerMap = w1.timerMap ∧ w2.loops = w1.loops ∧
      w2.chans = w1.chans := by
  obtain ⟨c, hc, ho⟩ := hwf.running_open p hr
  have hc1 : ((CancelOnce w (some p)).heap p).cancel = some c := by simp [CancelOnce, hc]
  have hd1 : ((CancelOnce w (some p)).heap p).timeType = disposable := by
    simp [CancelOnce, hd]
  have ho1 : (CancelOnce w (some p)).chans c = false := by simpa [CancelOnce] using ho
  refine ⟨_, _, Run_fire_disposable w p c hd hc ho, ?_, ?_, ?_, ?_, ?_, ?_,
    Run_fire_disposable _ p c hd1 hc1 ho1, ?_, ?_, ?_, ?_⟩
  · rfl
  · refine ⟨by simp, ?_⟩
    intro k hk
    simp only [Function.update_apply] at hk
    split_ifs at hk with h1
    exact h1 (hwf.reg_ptr k p hk).2.symm
  · intro k hk
    simp [Function.update_apply, hk]
  · intro q hq
    simp [Function.update_apply, hq]
  · simp
  · refine ⟨by simp, ?_⟩
    intro hl
    simp [canFire, hl]
  · simp [CancelOnce]
  · simp [CancelOnce]
  · simp [CancelOnce]
  · simp [CancelOnce]

/-- C4, worked example: the one-shot reminder, registered and in its loop, fires. -/
theorem disposable_fire_witness :
    ∃ w1, Run_fire worldOneShot 0 = .ok w1 ∧ w1.calls = [9] ∧
      w1.timerMap "[单次]call" = none ∧ canFire w1 0 = false := by
  obtain ⟨w1, _, h1, h2, h3, _, _, _, h7, _⟩ :=
    disposable_fire worldOneShot 0 (Reachable_WF _ (.start _ 0 (.add _ _ _ _ _ .init)))
      (by decide) (by decide)
  exact ⟨w1, h1, h2, h3.1, h7.2 (by decide)⟩

/-- C5: on a repeat-kind or ticker-kind timer, `k ≥ 1` calls of `CancelOnce` leave the same
state as one call; the first firing step afterwards does not invoke the callback, clears the
flag, leaves registry, channels and loop untouched, and the second firing step invokes the
callback. -/
theorem CancelOnce_suppresses_one (w : World) (p k : Nat) (hk : 1 ≤ k)
    (ht : (w.heap p).timeType = repeat_ ∨ (w.heap p).timeType = ticker) :
    (fun v => CancelOnce v (some p))^[k] w = CancelOnce w (some p) ∧
    ∃ w2 w3, Run_fire ((fun v => CancelOnce v (some p))^[k] w) p = .ok w2 ∧
      w2.calls = w.calls ∧ (w2.heap p).cancelOnce = false ∧
      w2.timerMap = w.timerMap ∧ w2.loops = w.loops ∧ w2.chans = w.chans ∧
      Run_fire w2 p = .ok w3 ∧
      w3.calls = w.calls ++ [(w.heap p).f] ∧
      w3.timerMap = w.timerMap ∧ w3.loops = w.loops ∧ w3.chans = w.chans := by
  obtain ⟨n, rfl⟩ : ∃ n, k = n + 1 := ⟨k - 1, by omega⟩
  have hnd : ¬ (w.heap p).timeType = disposable := by
    rcases ht with h | h <;> rw [h] <;> decide
  rw [CancelOnce_iterate]
  have hnd1 : ¬ ((CancelOnce w (some p)).heap p).timeType = disposable := by
    simpa [CancelOnce] using hnd
  have hs1 : ((CancelOnce w (some p)).heap p).cancelOnce = true := by simp [CancelOnce]
  refine ⟨rfl, _, _, Run_fire_skip _ p hnd1 hs1, ?_, ?_, ?_, ?_, ?_,
    Run_fire_call _ p ?_ ?_, ?_, ?_, ?_, ?_⟩
  · rfl
  · simp
  · rfl
  · rfl
  · rfl
  · simpa [CancelOnce] using hnd
  · simp
  · simp [CancelOnce]
  · rfl
  · rfl
  · rfl

/-- C5, worked example: three calls of `CancelOnce` on the running daily reminder. -/
theorem CancelOnce_suppresses_one_witness :
    (fun v => CancelOnce v (some 0))^[3] worldRunning = CancelOnce worldRunning (some 0) ∧
    ∃ w2 w3, Run_fire ((fun v => CancelOnce v (some 0))^[3] worldRunning) 0 = .ok w2 ∧
      w2.calls = [] ∧ Run_fire w2 0 = .ok w3 ∧ w3.calls = [7] := by
  obtain ⟨h0, w2, w3, h1, h2, _, _, _, _, h3, h4, _⟩ :=
    CancelOnce_suppresses_one worldRunning 0 3 (by decide) (Or.inl (by decide))
  exact ⟨h0, w2, w3, h1, h2, h3, h4⟩

/-- C6, as stated, fails: deleting by a title that is not a key does not report
`errNoSuchTimer`; the lookup yields a nil pointer and `DeleteTimer` returns normally. -/
theorem delTimer_missing_reports_nothing :
    World.init.timerMap "ghost" = none ∧
    delTimer World.init "ghost" ≠ .error .errNoSuchTimer := by
  refine ⟨rfl, ?_⟩
  simp [delTimer, DeleteTimer, World.init]

/-- C6, amended: deleting by a title that is not a key of the registry returns normally
without reporting any error, and leaves the whole state unchanged (registry, every timer,
every channel). -/
theorem delTimer_missing (w : World) (title : String) (h : w.timerMap title = none) :
    delTimer w title = .ok w := by
  simp [delTimer, DeleteTimer, h]

/-- C6, worked example: a missing title in a state with a running timer. -/
theorem delTimer_missing_witness :
    worldRunning.timerMap "ghost" = none ∧ delTimer worldRunning "ghost" = .ok worldRunning :=
  ⟨by decide, delTimer_missing worldRunning "ghost" (by decide)⟩

/-- C7: `DeleteTimer` on a running timer registered under a title returns normally; the
title is then absent, every other title maps to the same pointer and the same timer value
as before, the deleted timer keeps its channel, now closed, and has `running` false with
its other fields unchanged, and no other timer or channel of another timer changes. -/
theorem DeleteTimer_running (w : World) (title : String) (p : Nat) (hwf : WF w)
    (hreg : w.timerMap title = some p) (hr : (w.heap p).running = true) :
    ∃ w1 c, DeleteTimer w (some p) = .ok w1 ∧
      w1.timerMap title = none ∧
      (∀ k, k ≠ title → w1.timerMap k = w.timerMap k) ∧
      (w.heap p).cancel = some c ∧ w.chans c = false ∧ w1.chans c = true ∧
      w1.heap p = { w.heap p with running := false } ∧
      (∀ q, q ≠ p → w1.heap q = w.heap q ∧
        ∀ d, (w.heap q).cancel = some d → w1.chans d = w.chans d) ∧
      w1.calls = w.calls ∧ w1.loops = w.loops := by
  obtain ⟨c, hc, ho⟩ := hwf.running_open p hr
  have ht : (w.heap p).Title = title := (hwf.reg_ptr title p hreg).2
  subst ht
  refine ⟨_, c, DeleteTimer_open w p c hc ho, ?_, ?_, hc, ho, ?_, ?_, ?_, rfl, rfl⟩
  · simp
  · intro k hk
    simp [Function.update_apply, hk]
  · simp
  · simp
  · intro q hq
    refine ⟨by simp [Function.update_apply, hq], ?_⟩
    intro d hd
    have hne : d ≠ c := by
      intro e
      subst e
      exact hq (hwf.no_alias q p d hd hc)
    simp [Function.update_apply, hne]

/-- C7, worked example: deleting the daily reminder while the one-shot reminder is also
registered and running. -/
theorem DeleteTimer_running_witness :
    ∃ w1, DeleteTimer worldTwo (some 0) = .ok w1 ∧
      w1.timerMap "[重复\x7dstandup" = none ∧
      w1.timerMap "[单次]call" = some 1 ∧
      (w1.heap 0).running = false ∧ w1.chans 0 = true ∧
      (w1.heap 1).running = true ∧ w1.chans 1 = false := by
  obtain ⟨w1, c, h1, h2, h3, h4, _, h6, h7, h8, _⟩ :=
    DeleteTimer_running worldTwo "[重复\x7dstandup" 0
      (Reachable_WF _ (.start _ 1 (.add _ _ _ _ _ (.start _ 0 (.add _ _ _ _ _ .init)))))
      (by decide) (by decide)
  have hc0 : c = 0 := by
    have e : (worldTwo.heap 0).cancel = some 0 := by decide
    rw [e] at h4
    exact (Option.some.inj h4).symm
  subst hc0
  refine ⟨w1, h1, h2, ?_, ?_, h6, ?_, ?_⟩
  · rw [h3 _ (by decide)]
    decide
  · rw [h7]
  · rw [(h8 1 (by decide)).1]
    decide
  · rw [(h8 1 (by decide)).2 1 (by decide)]
    decide

/-- C8 (the code departs from it): `Cancel` and `DeleteTimer` test only for a nil receiver,
never the `running` flag; on a timer whose goroutine has not started they close a nil
channel, on a timer already cancelled they close the closed channel again, and a disposable
timer deleted just before its wait elapses closes its channel a second time when it
fires. -/
theorem Cancel_not_guarded :
    (worldAdded.heap 0).running = false ∧
    Cancel worldAdded (some 0) = .error .closeOfNilChannel ∧
    DeleteTimer worldAdded (some 0) = .error .closeOfNilChannel ∧
    (∃ w1, Cancel worldRunning (some 0) = .ok w1 ∧ (w1.heap 0).running = false ∧
      Cancel w1 (some 0) = .error .closeOfClosedChannel ∧
      DeleteTimer w1 (some 0) = .error .closeOfClosedChannel) ∧
    (∃ w1, Run_fire worldOneShot 0 = .ok w1 ∧ (w1.heap 0).running = false ∧
      Cancel w1 (some 0) = .error .closeOfClosedChannel) ∧
    (∃ w1, delTimer worldOneShot "[单次]call" = .ok w1 ∧ canFire w1 0 = true ∧
      Run_fire w1 0 = .error .closeOfClosedChannel) := by
  refine ⟨by decide, rfl, rfl, ⟨_, rfl, by decide, rfl, rfl⟩, ⟨_, rfl, by decide, rfl⟩,
    ⟨_, rfl, by decide, rfl⟩⟩

/-- C9: `AddTicker(t)` stores a copy of `t` in a fresh cell and maps `t.Title` to it; every
other title keeps its pointer; every timer registered before, the one formerly under
`t.Title` included, keeps all its fields (so its `running` flag and channel), and no channel
changes state: the overwritten timer is not cancelled.  The same still holds once the new
goroutine has run the prologue of `Run`, and the new timer still has the title, kind,
schedule and callback of `t`. -/
theorem AddTicker_registers (w : World) (t : Timer) (hwf : WF w) :
    (AddTicker w t).timerMap t.Title = some w.nTimers ∧
    (AddTicker w t).heap w.nTimers = t ∧
    (∀ k, k ≠ t.Title → (AddTicker w t).timerMap k = w.timerMap k) ∧
    (∀ k q, w.timerMap k = some q →
      q ≠ w.nTimers ∧ (AddTicker w t).heap q = w.heap q ∧
      (goStart (AddTicker w t) w.nTimers).heap q = w.heap q) ∧
    (AddTicker w t).chans = w.chans ∧
    (∀ q c, (w.heap q).cancel = some c →
      (goStart (AddTicker w t) w.nTimers).chans c = w.chans c) ∧
    (goStart (AddTicker w t) w.nTimers).timerMap = (AddTicker w t).timerMap ∧
    ((goStart (AddTicker w t) w.nTimers).heap w.nTimers).Title = t.Title ∧
    ((goStart (AddTicker w t) w.nTimers).heap w.nTimers).timeType = t.timeType ∧
    ((goStart (AddTicker w t) w.nTimers).heap w.nTimers).time = t.time ∧
    ((goStart (AddTicker w t) w.nTimers).heap w.nTimers).f = t.f := by
  have hfresh : ∀ k q, w.timerMap k = some q → q ≠ w.nTimers := by
    intro k q hk
    have := (hwf.reg_ptr k q hk).1
    omega
  refine ⟨?_, ?_, ?_, ?_, rfl, ?_, ?_, ?_, ?_, ?_, ?_⟩
  · simp [AddTicker]
  · simp [AddTicker]
  · intro k hk
    simp [AddTicker, Function.update_apply, hk]
  · intro k q hk
    have hq := hfresh k q hk
    refine ⟨hq, by simp [AddTicker, Function.update_apply, hq], ?_⟩
    simp only [goStart, Run_enter, AddTicker]
    split_ifs <;> simp [Function.update_apply, hq]
  · intro q c hc
    have hlt := hwf.chan_alloc q c hc
    have hne : c ≠ w.nChans := by omega
    simp only [goStart, Run_enter, AddTicker]
    split_ifs <;> simp [Function.update_apply, hne]
  · simp only [goStart, Run_enter, AddTicker]
    split_ifs <;> rfl
  · simp only [goStart, Run_enter, AddTicker]
    split_ifs <;> simp
  · simp only [goStart, Run_enter, AddTicker]
    split_ifs <;> simp
  · simp only [goStart, Run_enter, AddTicker]
    split_ifs <;> simp
  · simp only [goStart, Run_enter, AddTicker]
    split_ifs <;> simp

/-- C9, worked example: a second daily reminder with the title of the running one replaces
it in the registry; the first one is still running on its open channel. -/
theorem AddTicker_registers_witness :
    worldRunning.timerMap sched1800.Title = some 0 ∧
    (AddTicker worldRunning sched1800).timerMap sched1800.Title = some 1 ∧
    ((goStart (AddTicker worldRunning sched1800) 1).heap 0).running = true ∧
    (goStart (AddTicker worldRunning sched1800) 1).chans 0 = false := by
  have h := AddTicker_registers worldRunning sched1800
    (Reachable_WF _ (.start _ 0 (.add _ _ _ _ _ .init)))
  refine ⟨by decide, h.1, ?_, ?_⟩
  · have e := (h.2.2.2.1 sched1800.Title 0 (by decide)).2.2
    have e1 : worldRunning.nTimers = 1 := rfl
    rw [e1] at e
    rw [e]
    decide
  · have e := h.2.2.2.2.2.1 0 0 (by decide)
    have e1 : worldRunning.nTimers = 1 := rfl
    rw [e1] at e
    rw [e]
    decide

/-- C10, as stated, fails: a timer that was started and then stopped by `Cancel`, its
goroutine having left the loop, is started again by a later `Run`: `running` is true again,
a second channel has been created and a goroutine is in the loop. -/
theorem Run_after_Cancel_restarts :
    ∃ w1, Cancel worldRunning (some 0) = .ok w1 ∧
      ((Run_cancelled w1 0).heap 0).running = false ∧
      canFire (Run_cancelled w1 0) 0 = false ∧
      Run_enter (Run_cancelled w1 0) 0 ≠ Run_cancelled w1 0 ∧
      ((Run_enter (Run_cancelled w1 0) 0).heap 0).running = true ∧
      ((Run_enter (Run_cancelled w1 0) 0).heap 0).cancel = some 1 ∧
      canFire (Run_enter (Run_cancelled w1 0) 0) 0 = true := by
  refine ⟨_, rfl, by decide, by decide, ?_, by decide, by decide, by decide⟩
  intro e
  have h := congrArg (fun v => (v.heap 0).running) e
  revert h
  decide

/-- C10, amended: `Run` enters the loop exactly when the `running` flag is false.  On a
running timer it changes nothing.  On a timer whose flag is false it sets the flag,
creates a new open channel and enters the loop; `Cancel`, `DeleteTimer` and the firing of a
disposable timer, when they return normally, leave the flag false, so a later `Run` on a
stopped timer enters the loop again. -/
theorem Run_enter_guard (w : World) (p : Nat) :
    ((w.heap p).running = true → Run_enter w p = w) ∧
    ((w.heap p).running = false →
      ((Run_enter w p).heap p).running = true ∧
      ((Run_enter w p).heap p).cancel = some w.nChans ∧
      (Run_enter w p).chans w.nChans = false ∧
      (Run_enter w p).nChans = w.nChans + 1 ∧
      (Run_enter w p).loops p = w.loops p + 1) ∧
    (∀ w1, Cancel w (some p) = .ok w1 →
      (w1.heap p).running = false ∧ ((Run_enter w1 p).heap p).running = true) ∧
    (∀ w1, DeleteTimer w (some p) = .ok w1 →
      (w1.heap p).running = false ∧ ((Run_enter w1 p).heap p).running = true) ∧
    (∀ w1, (w.heap p).timeType = disposable → Run_fire w p = .ok w1 →
      (w1.heap p).running = false ∧ ((Run_enter w1 p).heap p).running = true) := by
  have hre : ∀ v : World, ((Run_enter v p).heap p).running = true := by
    intro v
    unfold Run_enter
    split_ifs with h
    · exact h
    · simp
  have hcan : ∀ v v1 : World, Cancel v (some p) = .ok v1 → (v1.heap p).running = false := by
    intro v v1 hc
    simp only [Cancel] at hc
    split at hc
    · simp at hc
    · split_ifs at hc
      simp only [Except.ok.injEq] at hc
      subst hc
      simp
  have hdel : ∀ v v1 : World, DeleteTimer v (some p) = .ok v1 →
      (v1.heap p).running = false := by
    intro v v1 hd
    exact hcan _ v1 hd
  refine ⟨?_, ?_, ?_, ?_, ?_⟩
  · intro h
    simp [Run_enter, h]
  · intro h
    simp [Run_enter, h]
  · intro w1 h
    exact ⟨hcan w w1 h, hre w1⟩
  · intro w1 h
    exact ⟨hdel w w1 h, hre w1⟩
  · intro w1 hd h
    refine ⟨?_, hre w1⟩
    unfold Run_fire at h
    rw [if_pos hd] at h
    split at h
    · simp at h
    · rename_i w2 hw2
      simp only [Except.ok.injEq] at h
      subst h
      exact hdel _ w2 hw2

/-- C10, worked example: the guard on the running daily reminder and on the registered
timer whose goroutine has not started. -/
theorem Run_enter_guard_witness :
    (worldRunning.heap 0).running = true ∧ Run_enter worldRunning 0 = worldRunning ∧
    (worldAdded.heap 0).running = false ∧
    ((Run_enter worldAdded 0).heap 0).running = true :=
  ⟨by decide, (Run_enter_guard worldRunning 0).1 (by decide), by decide,
    ((Run_enter_guard worldAdded 0).2.1 (by decide)).1⟩

end Ticker
